import Mathlib

/-!
Verification of the render pipeline of rust-ptouch (`src/render/mod.rs`).

The `Display` (framebuffer) and operation/error types live in modules that are
declared but whose sources are not available; they are modelled from the spec
(§3, §4.1, §6, §7) and from the unit test `test_display` in `src/render/mod.rs`.
The `Render` compositor and the text/pad rendering routines are translated
directly from `src/render/mod.rs`.

Machine integers (`usize`) are modelled as `Nat` with explicit checked
subtraction (Rust debug semantics: underflow panics); `f32` font metrics and
coverage values are modelled as `Rat`.  Fallible Rust code (`Result<_, Error>`)
together with possible panics (`unimplemented!`, `.expect`, `.unwrap`, checked
arithmetic) is modelled by the `Outcome` type below.
-/

namespace PTouch

/-- Modelled from the spec (§7): the error kinds of the missing `crate::Error`
type: `OutOfBounds`, `FontLoadFailure`, `UnsupportedOperation`, `WidthExceeded`. -/
inductive RError where
  | outOfBounds
  | fontLoadFailure
  | unsupportedOperation
  | widthExceeded
deriving DecidableEq, Repr

/-- Outcome of running a fallible Rust routine: a normal value, a recoverable
`Err` (returned to the caller), or a panic (process abort) with its message. -/
inductive Outcome (α : Type) where
  | ok : α → Outcome α
  | err : RError → Outcome α
  | fatal : String → Outcome α
deriving Repr, DecidableEq

/-- Monadic bind for `Outcome`: `?`-propagation of errors and panics. -/
def Outcome.bind {α β : Type} : Outcome α → (α → Outcome β) → Outcome β
  | .ok a, f => f a
  | .err e, _ => .err e
  | .fatal m, _ => .fatal m

/-- Rust `.unwrap()` on a `Result`: an `Err` becomes a panic. -/
def Outcome.unwrapped {α : Type} : Outcome α → Outcome α
  | .ok a => .ok a
  | .err _ => .fatal "called Result::unwrap on an Err value"
  | .fatal m => .fatal m

/-- Checked `usize` subtraction (Rust debug semantics: underflow panics). -/
def checkedSub (a b : Nat) : Outcome Nat :=
  if b ≤ a then .ok (a - b) else .fatal "attempt to subtract with overflow"

/-- Bytes per column of a framebuffer of the given height: `ceil(height/8)`. -/
def bytesPerCol (height : Nat) : Nat := (height + 7) / 8

/-- Modelled from the spec (§3, §4.1) and the unit test `test_display`:
the missing `display` module's `Display`.  `data` is the column-major storage,
one packed byte-list per column, bit index = y within byte y/8, least
significant bit = y = 0. -/
structure Display where
  height : Nat
  data : List (List Nat)
deriving DecidableEq, Repr

/-- Current width of the framebuffer: the number of columns. -/
def Display.width (d : Display) : Nat := d.data.length

/-- Modelled from the spec (§4.1): `Display::new(height, initial_width)`,
a zero-filled canvas. -/
def Display.new (height initialWidth : Nat) : Display :=
  ⟨height, List.replicate initialWidth (List.replicate (bytesPerCol height) 0)⟩

/-- Read the pixel at (x, y); out-of-range coordinates read as "off". -/
def Display.pixel (d : Display) (x y : Nat) : Bool :=
  (((d.data.getD x []).getD (y / 8) 0).testBit (y % 8))

/-- Write bit `i` of byte `b` (used with `i < 8`). -/
def setBitByte (b i : Nat) (v : Bool) : Nat :=
  if v then b ||| 2 ^ i else b &&& (255 - 2 ^ i)

/-- Modelled from the spec (§4.1): `set(x, y, value)`.  Fails with an
out-of-range error if `y >= height`; if `x >= width` the canvas first grows
with zero-initialized columns up to `x` inclusive. -/
def Display.set (d : Display) (x y : Nat) (v : Bool) : Outcome Display :=
  if d.height ≤ y then .err .outOfBounds
  else
    let grown := d.data ++ List.replicate (x + 1 - d.data.length) (List.replicate (bytesPerCol d.height) 0)
    let col := grown.getD x []
    .ok ⟨d.height, grown.set x (col.set (y / 8) (setBitByte (col.getD (y / 8) 0) (y % 8) v))⟩

/-- Modelled from the spec (§4.1): `get(x, y)`, failing out of range. -/
def Display.get (d : Display) (x y : Nat) : Outcome Bool :=
  if d.width ≤ x ∨ d.height ≤ y then .err .outOfBounds
  else .ok (d.pixel x y)

/-- Modelled from the spec (§4.1 embedded-graphics adapter): `draw_pixel` on a
`Pixel(Point, BinaryColor)`; the point has signed coordinates, a negative
coordinate is outside the canvas. -/
def Display.draw_pixel (d : Display) (px py : Int) (v : Bool) : Outcome Display :=
  if px < 0 ∨ py < 0 then .err .outOfBounds
  else d.set px.toNat py.toNat v

/-- Pack a list of bits into one byte, least significant bit first. -/
def bitsToByte : List Bool → Nat
  | [] => 0
  | b :: rest => bitsToByte rest * 2 + (if b then 1 else 0)

/-- One byte of the row-major export: row `y`, byte block `xb`, containing
columns `8*xb .. 8*xb+7`, bit index = x mod 8, least significant bit =
smallest x. -/
def Display.rowByte (d : Display) (y xb : Nat) : Nat :=
  bitsToByte ((List.range 8).map fun k => d.pixel (8 * xb + k) y)

/-- Modelled from the spec (§4.1): `image()` / `export_row_major()`, the
row-major packed byte export: rows from y = 0, `ceil(width/8)` bytes per row. -/
def Display.image (d : Display) : List Nat :=
  (List.range d.height).flatMap fun y =>
    (List.range ((d.width + 7) / 8)).map fun xb => d.rowByte y xb

/-- Modelled from the spec (§3, §6): text layout options; only the
`vertical_centre` flag is consumed by the TTF text renderer. -/
structure TextOptions where
  vcentre : Bool
deriving DecidableEq, Repr

/-- Modelled from the spec (§3, §6): the missing `ops` module's closed
operation variant set: `Text`, `Pad`, and a reserved barcode-class variant
with no rendering routine. -/
inductive Op where
  | text (value : String) (opts : TextOptions)
  | pad (columns : Nat)
  | barcode (value : String)

/-- `RenderConfig` from `src/render/mod.rs`. -/
structure RenderConfig where
  min_x : Nat
  max_x : Nat
  y : Nat
deriving DecidableEq, Repr

/-- `Default for RenderConfig` from `src/render/mod.rs`. -/
def RenderConfig.default : RenderConfig := ⟨32, 1024, 64⟩

/-- Scaled vertical font metrics (`rusttype::VMetrics`), `f32` modelled as `ℚ`. -/
structure VMetrics where
  ascent : ℚ
  descent : ℚ
  lineGap : ℚ

/-- Pixel bounding box of a positioned glyph (`pixel_bounding_box()`):
minimum corner (signed) and pixel dimensions. -/
structure BBox where
  minX : Int
  minY : Int
  w : Nat
  h : Nat

/-- One positioned glyph as the render code consumes it: its horizontal
advance metric, its optional pixel bounding box (absolute within the line,
including the layout origin), and its rasterized coverage over the bounding
box (`g.draw`'s callback value), `f32` coverage modelled as `ℚ`. -/
structure Glyph where
  advanceWidth : ℚ
  bb : Option BBox
  coverage : Nat → Nat → ℚ

/-- The external font resource at the fixed scale 24 and layout origin
`(0, ascent.ceil())`, abstracted at its interface (spec §1, §6): vertical
metrics and per-line glyph layout. -/
structure Font where
  vmetrics : VMetrics
  layout : List Char → List Glyph
  layout_nil : layout [] = []

/-- Split a character list at newline characters; `Rust str::split("\n")`.
The empty string yields one empty line. -/
def splitNl : List Char → List (List Char)
  | [] => [[]]
  | c :: rest =>
    if c = '\n' then [] :: splitNl rest
    else
      match splitNl rest with
      | [] => [[c]]
      | l :: ls => (c :: l) :: ls

/-- `(v_metrics.ascent - v_metrics.descent + v_metrics.line_gap).ceil() as usize`
(`as usize` saturates negatives to 0). -/
def vHeight (font : Font) : Nat :=
  (⌈font.vmetrics.ascent - font.vmetrics.descent + font.vmetrics.lineGap⌉ : Int).toNat

/-- `v_height * lines.len() - v_metrics.line_gap.floor() as usize`, with
checked `usize` subtraction. -/
def tHeight (font : Font) (value : String) : Outcome Nat :=
  checkedSub (vHeight font * (splitNl value.data).length)
    (⌊font.vmetrics.lineGap⌋ : Int).toNat

/-- The vertical start offset `base_y`: `(self.cfg.y / 2) - (t_height / 2)`
(checked `usize` subtraction) when `vcentre`, else 0. -/
def baseY (cfg : RenderConfig) (font : Font) (value : String) (opts : TextOptions) :
    Outcome Nat :=
  (tHeight font value).bind fun t =>
    if opts.vcentre then checkedSub (cfg.y / 2) (t / 2) else .ok 0

/-- The coverage targets of one glyph: for each pixel (gx, gy) of its bounding
box, the signed framebuffer coordinates `(gx + bb.min.x + base_x,
gy + bb.min.y + line_y)` and the coverage value passed to `g.draw`'s callback. -/
def glyphTargets (baseX lineY : Nat) (g : Glyph) : List (Int × Int × ℚ) :=
  match g.bb with
  | none => []
  | some b =>
    (List.range b.h).flatMap fun (gy : Nat) =>
      (List.range b.w).map fun (gx : Nat) =>
        (((gx : Int) + b.minX + (baseX : Int), (gy : Int) + b.minY + (lineY : Int),
          g.coverage gx gy) : Int × Int × ℚ)

/-- One step of `g.draw`'s callback: if the coverage exceeds 0.5, draw an "on"
pixel (`draw_pixel(..).unwrap()`: a draw error is a panic). -/
def drawCov (d : Display) (t : Int × Int × ℚ) : Outcome Display :=
  if (1 : ℚ) / 2 < t.2.2 then (d.draw_pixel t.1 t.2.1 true).unwrapped else .ok d

/-- Fold a fallible drawing step over a list, threading the display. -/
def foldDraw {α : Type} (f : Display → α → Outcome Display) :
    List α → Display → Outcome Display
  | [], d => .ok d
  | a :: rest, d => (f d a).bind (foldDraw f rest)

/-- Render one glyph: run `drawCov` over all its coverage targets. -/
def drawGlyph (baseX lineY : Nat) (d : Display) (g : Glyph) : Outcome Display :=
  foldDraw drawCov (glyphTargets baseX lineY g) d

/-- The pixel width of one laid-out line: the sum of the glyphs' horizontal
advance widths, each rounded up (`advance_width.ceil() as usize`). -/
def lineWidth (glyphs : List Glyph) : Nat :=
  (glyphs.map fun g => (⌈g.advanceWidth⌉ : Int).toNat).sum

/-- The per-line loop of `render_text_ttf`: for line `i` at
`line_y = base_y + i * v_height`, update the running maximum line width and
draw every glyph. -/
def renderLines (font : Font) (baseX bY vH : Nat) :
    List (List Char) → Nat → Nat → Display → Outcome (Nat × Display)
  | [], _, maxW, d => .ok (maxW, d)
  | line :: rest, i, maxW, d =>
    (foldDraw (drawGlyph baseX (bY + i * vH)) (font.layout line) d).bind fun d' =>
      renderLines font baseX bY vH rest (i + 1)
        (if maxW < lineWidth (font.layout line) then lineWidth (font.layout line) else maxW) d'

/-- `Render::render_text_ttf` from `src/render/mod.rs`, parameterized by the
result of parsing the hardcoded font blob (`Font::try_from_bytes(..)`, whose
failure the code turns into a panic via `.expect`). -/
def render_text_ttf (cfg : RenderConfig) (fontData : Option Font) (x : Nat)
    (value : String) (opts : TextOptions) (d : Display) : Outcome (Nat × Display) :=
  match fontData with
  | none => .fatal "Error constructing Font"
  | some font =>
    (baseY cfg font value opts).bind fun bY =>
      renderLines font x bY (vHeight font) (splitNl value.data) 0 0 d

/-- `Render::pad` from `src/render/mod.rs`: draw an "off" pixel at
`(x + columns, 0)` (propagating a draw error with `?`) and return `columns`. -/
def pad (x columns : Nat) (d : Display) : Outcome (Nat × Display) :=
  (d.draw_pixel ((x + columns : Nat) : Int) 0 false).bind fun d' => .ok (columns, d')

/-- The loop body of `Render::render`: dispatch one operation at cursor `x`,
returning the cursor advance and the updated display.  The catch-all arm is
`unimplemented!()`, a panic. -/
def renderOp (cfg : RenderConfig) (fontData : Option Font) (op : Op) (x : Nat)
    (d : Display) : Outcome (Nat × Display) :=
  match op with
  | .text value opts => render_text_ttf cfg fontData x value opts d
  | .pad c => pad x c d
  | .barcode _ => .fatal "not implemented"

/-- The loop of `Render::render`: fold the operations in input order,
accumulating the cursor `x += advance`; returns the final cursor and display. -/
def renderOps (cfg : RenderConfig) (fontData : Option Font) :
    List Op → Nat → Display → Outcome (Nat × Display)
  | [], x, d => .ok (x, d)
  | op :: rest, x, d =>
    (renderOp cfg fontData op x d).bind fun r =>
      renderOps cfg fontData rest (x + r.1) r.2

/-- `Render::render` on a fresh `Render::new(cfg)` instance: the display
starts as `Display::new(cfg.y, cfg.min_x)` and the cursor at 0. -/
def Render.render (cfg : RenderConfig) (fontData : Option Font) (ops : List Op) :
    Outcome (Nat × Display) :=
  renderOps cfg fontData ops 0 (Display.new cfg.y cfg.min_x)

/-- The cursor values observed before each operation that the render loop
reaches (the trace stops after an error or panic). -/
def cursorTrace (cfg : RenderConfig) (fontData : Option Font) :
    List Op → Nat → Display → List Nat
  | [], _, _ => []
  | op :: rest, x, d =>
    x :: match renderOp cfg fontData op x d with
      | .ok r => cursorTrace cfg fontData rest (x + r.1) r.2
      | _ => []

/-! ## Definitional unfolding equations -/

theorem render_text_ttf_none (cfg : RenderConfig) (x : Nat) (value : String)
    (opts : TextOptions) (d : Display) :
    render_text_ttf cfg none x value opts d = .fatal "Error constructing Font" := rfl

theorem render_text_ttf_some (cfg : RenderConfig) (font : Font) (x : Nat)
    (value : String) (opts : TextOptions) (d : Display) :
    render_text_ttf cfg (some font) x value opts d =
      (baseY cfg font value opts).bind fun bY =>
        renderLines font x bY (vHeight font) (splitNl value.data) 0 0 d := rfl

theorem renderOp_text (cfg : RenderConfig) (f : Option Font) (value : String)
    (opts : TextOptions) (x : Nat) (d : Display) :
    renderOp cfg f (.text value opts) x d = render_text_ttf cfg f x value opts d := rfl

theorem renderOp_pad (cfg : RenderConfig) (f : Option Font) (c x : Nat) (d : Display) :
    renderOp cfg f (.pad c) x d = pad x c d := rfl

theorem renderOp_barcode (cfg : RenderConfig) (f : Option Font) (v : String)
    (x : Nat) (d : Display) :
    renderOp cfg f (.barcode v) x d = .fatal "not implemented" := rfl

theorem renderLines_cons (font : Font) (baseX bY vH : Nat) (line : List Char)
    (rest : List (List Char)) (i maxW : Nat) (d : Display) :
    renderLines font baseX bY vH (line :: rest) i maxW d =
      (foldDraw (drawGlyph baseX (bY + i * vH)) (font.layout line) d).bind fun d' =>
        renderLines font baseX bY vH rest (i + 1)
          (if maxW < lineWidth (font.layout line) then lineWidth (font.layout line) else maxW)
          d' := rfl

theorem pad_def (x columns : Nat) (d : Display) :
    pad x columns d =
      (d.draw_pixel ((x + columns : Nat) : Int) 0 false).bind fun d' => .ok (columns, d') := rfl

theorem baseY_def (cfg : RenderConfig) (font : Font) (value : String) (opts : TextOptions) :
    baseY cfg font value opts =
      (tHeight font value).bind fun t =>
        if opts.vcentre then checkedSub (cfg.y / 2) (t / 2) else .ok 0 := rfl

/-! ## Groundwork: `List.getD` toolkit -/

theorem getD_append {α : Type} (l1 l2 : List α) (a : α) (n : Nat) :
    (l1 ++ l2).getD n a = if n < l1.length then l1.getD n a else l2.getD (n - l1.length) a := by
  rcases Nat.lt_or_ge n l1.length with h | h
  · rw [if_pos h, List.getD_eq_getElem?_getD, List.getD_eq_getElem?_getD,
      List.getElem?_append_left h]
  · rw [if_neg (Nat.not_lt.2 h), List.getD_eq_getElem?_getD, List.getD_eq_getElem?_getD,
      List.getElem?_append_right h]

theorem getD_set {α : Type} (l : List α) (i j : Nat) (b : α) (a : α) :
    (l.set i b).getD j a = if i = j ∧ j < l.length then b else l.getD j a := by
  rcases eq_or_ne i j with rfl | hij
  · rcases Nat.lt_or_ge i l.length with h | h
    · rw [if_pos ⟨rfl, h⟩, List.getD_eq_getElem?_getD, List.getElem?_set_self h]
      rfl
    · rw [if_neg (by omega), List.getD_eq_getElem?_getD, List.getD_eq_getElem?_getD,
        List.getElem?_eq_none (by simpa using h), List.getElem?_eq_none h]
  · rw [if_neg (by tauto), List.getD_eq_getElem?_getD, List.getD_eq_getElem?_getD,
      List.getElem?_set_ne hij]

theorem getD_replicate {α : Type} (c a : α) (n j : Nat) :
    (List.replicate n c).getD j a = if j < n then c else a := by
  rw [List.getD_eq_getElem?_getD, List.getElem?_replicate]
  rcases Nat.lt_or_ge j n with h | h
  · simp [h]
  · simp [Nat.not_lt.2 h]

theorem getD_nil {α : Type} (a : α) (n : Nat) : ([] : List α).getD n a = a := rfl

theorem getD_out_of_range {α : Type} (l : List α) (a : α) {n : Nat} (h : l.length ≤ n) :
    l.getD n a = a := by
  rw [List.getD_eq_getElem?_getD, List.getElem?_eq_none h]
  rfl

/-! ## Groundwork: framebuffer lemmas -/

/-- Well-formed display: every column holds exactly `ceil(height/8)` bytes
(spec §3 invariant). -/
def Display.WF (d : Display) : Prop :=
  ∀ col ∈ d.data, col.length = bytesPerCol d.height

/-- The column data produced by a successful `set`. -/
def setData (d : Display) (x y : Nat) (v : Bool) : List (List Nat) :=
  let grown := d.data ++ List.replicate (x + 1 - d.data.length) (List.replicate (bytesPerCol d.height) 0)
  let col := grown.getD x []
  grown.set x (col.set (y / 8) (setBitByte (col.getD (y / 8) 0) (y % 8) v))

theorem Display.set_eq {d : Display} {x y : Nat} {v : Bool} (hy : y < d.height) :
    d.set x y v = .ok ⟨d.height, setData d x y v⟩ := by
  unfold Display.set setData
  rw [if_neg (by omega)]

theorem Display.set_eq_err {d : Display} {x y : Nat} {v : Bool} (hy : d.height ≤ y) :
    d.set x y v = .err .outOfBounds := by
  unfold Display.set
  rw [if_pos hy]

theorem wf_new (h w : Nat) : (Display.new h w).WF := by
  intro col hcol
  simp only [Display.new, List.eq_of_mem_replicate hcol, List.length_replicate]

theorem pixel_new (h w p q : Nat) : (Display.new h w).pixel p q = false := by
  unfold Display.pixel Display.new
  simp only [getD_replicate]
  rcases Nat.lt_or_ge p w with hp | hp
  · rw [if_pos hp, getD_replicate]
    rcases Nat.lt_or_ge (q / 8) (bytesPerCol h) with hq | hq
    · rw [if_pos hq, Nat.zero_testBit]
    · rw [if_neg (Nat.not_lt.2 hq), Nat.zero_testBit]
  · rw [if_neg (Nat.not_lt.2 hp), getD_nil, Nat.zero_testBit]

theorem div8_lt {y h : Nat} (hy : y < h) : y / 8 < bytesPerCol h := by
  unfold bytesPerCol
  omega

theorem testBit_setBitByte (b i j : Nat) (v : Bool) (hi : i < 8) (hj : j < 8) :
    (setBitByte b i v).testBit j = if j = i then v else b.testBit j := by
  unfold setBitByte
  have h255 : ∀ i' < 8, ∀ j' < 8, (255 - 2 ^ i' : Nat).testBit j' = decide (j' ≠ i') := by decide
  cases v with
  | true =>
    rw [if_pos rfl, Nat.testBit_or, Nat.testBit_two_pow]
    rcases eq_or_ne j i with rfl | h
    · simp
    · simp [Ne.symm h, h]
  | false =>
    rw [if_neg (by simp), Nat.testBit_and, h255 i hi j hj]
    rcases eq_or_ne j i with rfl | h
    · simp
    · simp [h]

/-- Length of the grown column list. -/
theorem setData_length (d : Display) (x y : Nat) (v : Bool) :
    (setData d x y v).length = max d.width (x + 1) := by
  unfold setData Display.width
  simp only [List.length_set, List.length_append, List.length_replicate]
  omega

/-- The pixel of a display out of the `Display.pixel` abbreviation. -/
theorem pixel_def (d : Display) (p q : Nat) :
    d.pixel p q = ((d.data.getD p []).getD (q / 8) 0).testBit (q % 8) := rfl

/-- `set` preserves well-formedness. -/
theorem wf_setData {d : Display} (hwf : d.WF) {x y : Nat} {v : Bool} :
    (⟨d.height, setData d x y v⟩ : Display).WF := by
  have hgl : (d.data ++ List.replicate (x + 1 - d.data.length)
      (List.replicate (bytesPerCol d.height) 0)).length = max d.data.length (x + 1) := by
    simp only [List.length_append, List.length_replicate]
    omega
  intro col hcol
  unfold setData at hcol
  simp only at hcol
  rcases List.mem_or_eq_of_mem_set hcol with hmem | rfl
  · rcases List.mem_append.1 hmem with hl | hr
    · exact hwf col hl
    · simp [List.eq_of_mem_replicate hr]
  · rw [List.length_set, getD_append]
    rcases Nat.lt_or_ge x d.data.length with hx | hx
    · rw [if_pos hx, List.getD_eq_getElem?_getD, List.getElem?_eq_getElem hx, Option.getD_some]
      exact hwf _ (List.getElem_mem hx)
    · rw [if_neg (Nat.not_lt.2 hx), getD_replicate, if_pos (by omega)]
      simp

/-- Pixel view after a successful `set`: the targeted pixel holds `v`, all
others are unchanged. -/
theorem pixel_setData {d : Display} (hwf : d.WF) {x y : Nat} {v : Bool} (hy : y < d.height)
    (p q : Nat) :
    (⟨d.height, setData d x y v⟩ : Display).pixel p q =
      if p = x ∧ q = y then v else d.pixel p q := by
  have hzc : ∀ j : Nat, (List.replicate (bytesPerCol d.height) (0 : Nat)).getD j 0 = 0 := by
    intro j
    rw [getD_replicate]
    split <;> rfl
  rw [pixel_def, pixel_def]
  unfold setData
  simp only
  set grown := d.data ++ List.replicate (x + 1 - d.data.length)
    (List.replicate (bytesPerCol d.height) 0) with hg
  have hglen : x < grown.length := by
    rw [hg]
    simp only [List.length_append, List.length_replicate]
    omega
  set col := grown.getD x [] with hcol
  -- the column targeted by the write, before the write
  have hcol_cases : (x < d.data.length ∧ col = d.data.getD x []) ∨
      (d.data.length ≤ x ∧ col = List.replicate (bytesPerCol d.height) 0) := by
    rw [hcol, hg, getD_append]
    rcases Nat.lt_or_ge x d.data.length with hx | hx
    · exact .inl ⟨hx, by rw [if_pos hx]⟩
    · refine .inr ⟨hx, ?_⟩
      rw [if_neg (Nat.not_lt.2 hx), getD_replicate, if_pos (by omega)]
  have hcol_len : col.length = bytesPerCol d.height := by
    rcases hcol_cases with ⟨hx, hc⟩ | ⟨hx, hc⟩
    · rw [hc, List.getD_eq_getElem?_getD, List.getElem?_eq_getElem hx, Option.getD_some]
      exact hwf _ (List.getElem_mem hx)
    · rw [hc, List.length_replicate]
  have hcol_byte : ∀ j : Nat, col.getD j 0 = (d.data.getD x []).getD j 0 := by
    intro j
    rcases hcol_cases with ⟨hx, hc⟩ | ⟨hx, hc⟩
    · rw [hc]
    · rw [hc, hzc, getD_out_of_range _ _ hx, getD_nil]
  set bnew := setBitByte (col.getD (y / 8) 0) (y % 8) v with hb
  rcases eq_or_ne p x with rfl | hpx
  · -- the modified column
    have houter : (grown.set p (col.set (y / 8) bnew)).getD p [] = col.set (y / 8) bnew := by
      rw [getD_set, if_pos ⟨rfl, hglen⟩]
    rw [houter]
    rcases eq_or_ne q y with rfl | hqy
    · have hinner : (col.set (q / 8) bnew).getD (q / 8) 0 = bnew := by
        rw [getD_set, if_pos ⟨rfl, by rw [hcol_len]; exact div8_lt hy⟩]
      rw [hinner, hb, testBit_setBitByte _ _ _ _ (Nat.mod_lt _ (by omega)) (Nat.mod_lt _ (by omega)),
        if_pos rfl, if_pos ⟨rfl, rfl⟩]
    · rw [if_neg (by tauto)]
      rcases eq_or_ne (y / 8) (q / 8) with hq8 | hq8
      · have hmod : q % 8 ≠ y % 8 := by omega
        have hinner : (col.set (y / 8) bnew).getD (q / 8) 0 = bnew := by
          rw [getD_set, if_pos ⟨hq8, by rw [hcol_len, ← hq8]; exact div8_lt hy⟩]
        rw [hinner, hb, testBit_setBitByte _ _ _ _ (Nat.mod_lt _ (by omega)) (Nat.mod_lt _ (by omega)),
          if_neg hmod, ← hq8, hcol_byte, hq8]
      · have hinner : (col.set (y / 8) bnew).getD (q / 8) 0 = col.getD (q / 8) 0 := by
          rw [getD_set, if_neg (by tauto)]
        rw [hinner, hcol_byte]
  · -- an untouched column
    rw [if_neg (by tauto)]
    have houter : (grown.set x (col.set (y / 8) bnew)).getD p [] = grown.getD p [] := by
      rw [getD_set, if_neg (by tauto)]
    rw [houter, hg, getD_append]
    rcases Nat.lt_or_ge p d.data.length with hp | hp
    · rw [if_pos hp]
    · rw [if_neg (Nat.not_lt.2 hp), getD_out_of_range _ _ hp, getD_nil, getD_replicate]
      split
      · rw [hzc]
      · rw [getD_nil]

/-! ## Groundwork: row-major export lemmas -/

theorem testBit_bitsToByte (l : List Bool) : ∀ j : Nat, (bitsToByte l).testBit j = l.getD j false := by
  induction l with
  | nil =>
    intro j
    show (0 : Nat).testBit j = false
    rw [Nat.zero_testBit]
  | cons b rest ih =>
    intro j
    cases j with
    | zero =>
      show (bitsToByte rest * 2 + (if b then 1 else 0)).testBit 0 = b
      rw [Nat.testBit_zero]
      cases b with
      | true => simp; omega
      | false => simp
    | succ j =>
      show (bitsToByte rest * 2 + (if b then 1 else 0)).testBit (j + 1) = rest.getD j false
      rw [Nat.testBit_succ]
      have h2 : (bitsToByte rest * 2 + (if b then 1 else 0)) / 2 = bitsToByte rest := by
        cases b with
        | true => simp; omega
        | false => simp
      rw [h2, ih j]

theorem image_length (d : Display) :
    d.image.length = d.height * ((d.width + 7) / 8) := by
  unfold Display.image
  rw [List.flatMap_def, List.length_flatten, List.map_map]
  have : (List.map (List.length ∘ fun y => (List.range ((d.width + 7) / 8)).map fun xb => d.rowByte y xb) (List.range d.height)) = List.replicate d.height ((d.width + 7) / 8) := by
    rw [show (List.length ∘ fun y => (List.range ((d.width + 7) / 8)).map fun xb => d.rowByte y xb) = fun _ => (d.width + 7) / 8 by
      funext y
      simp]
    rw [List.map_const', List.length_range]
  rw [this, List.sum_replicate, smul_eq_mul]

theorem getD_flatten_of_len {α : Type} {m : Nat} :
    ∀ (L : List (List α)), (∀ l ∈ L, l.length = m) →
      ∀ (i j : Nat) (a : α), i < L.length → j < m →
        L.flatten.getD (i * m + j) a = (L.getD i []).getD j a
  | [], _, i, j, a, hi, _ => by cases hi
  | l :: rest, h, 0, j, a, _, hj => by
    have hl : l.length = m := h l (by simp)
    rw [List.flatten_cons, Nat.zero_mul, Nat.zero_add, getD_append, if_pos (by omega)]
    rfl
  | l :: rest, h, i + 1, j, a, hi, hj => by
    have hl : l.length = m := h l (by simp)
    rw [List.flatten_cons, getD_append, if_neg (by push_neg; calc
      l.length = m := hl
      _ ≤ (i + 1) * m + j := by
        calc m ≤ (i + 1) * m := Nat.le_mul_of_pos_left m (by omega)
        _ ≤ (i + 1) * m + j := Nat.le_add_right _ _)]
    have harith : (i + 1) * m + j - l.length = i * m + j := by
      rw [hl]
      ring_nf
      omega
    rw [harith]
    have := getD_flatten_of_len rest (fun l hl => h l (by simp [hl])) i j a (by simpa using hi) hj
    rw [this]
    rfl

/-- Indexing into the row-major export: entry `y * ceil(width/8) + xb` is
`rowByte y xb`. -/
theorem getD_image (d : Display) {y xb : Nat} (hy : y < d.height)
    (hxb : xb < (d.width + 7) / 8) :
    d.image.getD (y * ((d.width + 7) / 8) + xb) 0 = d.rowByte y xb := by
  unfold Display.image
  rw [List.flatMap_def]
  have hlen : ∀ l ∈ (List.range d.height).map (fun y => (List.range ((d.width + 7) / 8)).map fun xb => d.rowByte y xb), l.length = (d.width + 7) / 8 := by
    intro l hl
    rcases List.mem_map.1 hl with ⟨y', _, rfl⟩
    simp
  rw [getD_flatten_of_len _ hlen y xb 0 (by simpa using hy) hxb]
  have hrow : ((List.range d.height).map (fun y => (List.range ((d.width + 7) / 8)).map fun xb => d.rowByte y xb)).getD y [] = (List.range ((d.width + 7) / 8)).map fun xb => d.rowByte y xb := by
    rw [List.getD_eq_getElem?_getD, List.getElem?_map, List.getElem?_range hy]
    rfl
  rw [hrow, List.getD_eq_getElem?_getD, List.getElem?_map, List.getElem?_range hxb]
  rfl

/-- Bit `k` of `rowByte y xb` is the pixel at `(8 * xb + k, y)`. -/
theorem testBit_rowByte (d : Display) (y xb : Nat) {k : Nat} (hk : k < 8) :
    (d.rowByte y xb).testBit k = d.pixel (8 * xb + k) y := by
  unfold Display.rowByte
  rw [testBit_bitsToByte, List.getD_eq_getElem?_getD, List.getElem?_map,
    List.getElem?_range hk]
  rfl

/-! ## Groundwork: draw_pixel, pad and error-kind lemmas -/

theorem draw_pixel_eq_ok {d : Display} {px py : Int} {v : Bool} {d' : Display}
    (h : d.draw_pixel px py v = .ok d') :
    0 ≤ px ∧ 0 ≤ py ∧ py.toNat < d.height ∧ d' = ⟨d.height, setData d px.toNat py.toNat v⟩ := by
  unfold Display.draw_pixel at h
  split at h
  · cases h
  · rename_i hn
    push_neg at hn
    rcases Nat.lt_or_ge py.toNat d.height with hy | hy
    · rw [Display.set_eq hy] at h
      cases h
      exact ⟨hn.1, hn.2, hy, rfl⟩
    · rw [Display.set_eq_err hy] at h
      cases h

theorem draw_pixel_err {d : Display} {px py : Int} {v : Bool} {e : RError}
    (h : d.draw_pixel px py v = .err e) : e = .outOfBounds := by
  unfold Display.draw_pixel at h
  split at h
  · cases h
    rfl
  · unfold Display.set at h
    split at h
    · cases h
      rfl
    · cases h

theorem set_err {d : Display} {x y : Nat} {v : Bool} {e : RError}
    (h : d.set x y v = .err e) : e = .outOfBounds := by
  unfold Display.set at h
  split at h
  · cases h
    rfl
  · cases h

theorem drawCov_ne_err (d : Display) (t : Int × Int × ℚ) (e : RError) :
    drawCov d t ≠ .err e := by
  unfold drawCov
  split
  · unfold Outcome.unwrapped
    split <;> intro h <;> cases h
  · intro h
    cases h

theorem bind_ne_err {α β : Type} {a : Outcome α} {f : α → Outcome β}
    (ha : ∀ e, a ≠ .err e) (hf : ∀ v e, f v ≠ .err e) :
    ∀ e, a.bind f ≠ .err e := by
  intro e h
  cases a with
  | ok v => exact hf v e h
  | err e1 => exact ha e1 rfl
  | fatal m => cases h

theorem foldDraw_ne_err {α : Type} {f : Display → α → Outcome Display}
    (hf : ∀ d a e, f d a ≠ .err e) :
    ∀ (l : List α) (d : Display) (e : RError), foldDraw f l d ≠ .err e := by
  intro l
  induction l with
  | nil => intro d e h; cases h
  | cons a rest ih =>
    intro d e
    show (f d a).bind (foldDraw f rest) ≠ .err e
    exact bind_ne_err (hf d a) (fun d1 e1 => ih d1 e1) e

theorem drawGlyph_ne_err (baseX lineY : Nat) (d : Display) (g : Glyph) (e : RError) :
    drawGlyph baseX lineY d g ≠ .err e :=
  foldDraw_ne_err (fun d t e => drawCov_ne_err d t e) _ d e

theorem renderLines_ne_err (font : Font) (baseX bY vH : Nat) :
    ∀ (lines : List (List Char)) (i maxW : Nat) (d : Display) (e : RError),
      renderLines font baseX bY vH lines i maxW d ≠ .err e := by
  intro lines
  induction lines with
  | nil => intro i maxW d e h; cases h
  | cons line rest ih =>
    intro i maxW d e
    rw [renderLines_cons]
    exact bind_ne_err
      (foldDraw_ne_err (fun d g e => drawGlyph_ne_err _ _ d g e) _ d)
      (fun d1 e1 => ih _ _ d1 e1) e

theorem checkedSub_ne_err (a b : Nat) (e : RError) : checkedSub a b ≠ .err e := by
  unfold checkedSub
  split <;> intro h <;> cases h

theorem baseY_ne_err (cfg : RenderConfig) (font : Font) (value : String)
    (opts : TextOptions) (e : RError) : baseY cfg font value opts ≠ .err e := by
  rw [baseY_def]
  refine bind_ne_err (checkedSub_ne_err _ _) (fun t e => ?_) e
  split
  · exact checkedSub_ne_err _ _ e
  · intro h
    cases h

theorem render_text_ttf_ne_err (cfg : RenderConfig) (fontData : Option Font) (x : Nat)
    (value : String) (opts : TextOptions) (d : Display) (e : RError) :
    render_text_ttf cfg fontData x value opts d ≠ .err e := by
  cases fontData with
  | none =>
    rw [render_text_ttf_none]
    intro h
    cases h
  | some font =>
    rw [render_text_ttf_some]
    exact bind_ne_err (baseY_ne_err cfg font value opts)
      (fun bY e => renderLines_ne_err font x bY (vHeight font) _ 0 0 d e) e

theorem renderOp_err {cfg : RenderConfig} {f : Option Font} {op : Op} {x : Nat}
    {d : Display} {e : RError} (h : renderOp cfg f op x d = .err e) : e = .outOfBounds := by
  cases op with
  | text value opts => exact absurd h (render_text_ttf_ne_err cfg f x value opts d e)
  | pad c =>
    rw [renderOp_pad, pad_def] at h
    cases hd : d.draw_pixel ((x + c : Nat) : Int) 0 false with
    | ok d1 =>
      rw [hd] at h
      cases h
    | err e1 =>
      rw [hd] at h
      cases h
      exact draw_pixel_err hd
    | fatal m =>
      rw [hd] at h
      cases h
  | barcode v => cases h

/-! ## Claim C2: column-major storage vs row-major export -/

/-- C2: the packing scheme.  With height 8: `set(0,0,true)` on an empty canvas
gives column `[0b00000001]` and export `[1,0,0,0,0,0,0,0]`; `set(1,0,true)`
gives columns `[0b0],[0b1]` and export first byte `0b00000010`; `set(0,1,true)`
gives column `[0b00000010]` and export second byte `0b00000001`.  For every
canvas the export has `height * ceil(width/8)` bytes, and row `y` is packed
with bit index `x mod 8`, least-significant bit = smallest `x`. -/
theorem display_packing_spec :
    (Display.set (Display.new 8 0) 0 0 true = .ok ⟨8, [[1]]⟩ ∧
      Display.image ⟨8, [[1]]⟩ = [1, 0, 0, 0, 0, 0, 0, 0]) ∧
    (Display.set (Display.new 8 0) 1 0 true = .ok ⟨8, [[0], [1]]⟩ ∧
      Display.image ⟨8, [[0], [1]]⟩ = [2, 0, 0, 0, 0, 0, 0, 0]) ∧
    (Display.set (Display.new 8 0) 0 1 true = .ok ⟨8, [[2]]⟩ ∧
      Display.image ⟨8, [[2]]⟩ = [0, 1, 0, 0, 0, 0, 0, 0]) ∧
    (∀ d : Display, d.image.length = d.height * ((d.width + 7) / 8)) ∧
    (∀ (d : Display) (x y : Nat), x < d.width → y < d.height →
      (d.image.getD (y * ((d.width + 7) / 8) + x / 8) 0).testBit (x % 8) = d.pixel x y) := by
  refine ⟨⟨by decide, by decide⟩, ⟨by decide, by decide⟩, ⟨by decide, by decide⟩,
    image_length, ?_⟩
  intro d x y hx hy
  rw [getD_image d hy (div8_lt hx), testBit_rowByte d y _ (Nat.mod_lt _ (by omega))]
  congr 1
  omega

/-- Witness for C2: the bit-characterization at the concrete scenario-C
display (`set(0,1,true)`). -/
theorem display_packing_spec_witness :
    (0 : Nat) < (⟨8, [[2]]⟩ : Display).width ∧ (1 : Nat) < (⟨8, [[2]]⟩ : Display).height ∧
      ((⟨8, [[2]]⟩ : Display).image.getD (1 * (((⟨8, [[2]]⟩ : Display).width + 7) / 8) + 0 / 8) 0).testBit (0 % 8) =
        (⟨8, [[2]]⟩ : Display).pixel 0 1 :=
  ⟨by decide, by decide,
    display_packing_spec.2.2.2.2 ⟨8, [[2]]⟩ 0 1 (by decide) (by decide)⟩

/-! ## Claim C5: cursor starts at 0, in-order application, monotone cursor -/

theorem cursorTrace_head (cfg : RenderConfig) (f : Option Font) (ops : List Op)
    (x : Nat) (d : Display) :
    (cursorTrace cfg f ops x d).head? = if ops.isEmpty then none else some x := by
  cases ops <;> rfl

theorem cursorTrace_chain (cfg : RenderConfig) (f : Option Font) :
    ∀ (ops : List Op) (x : Nat) (d : Display),
      List.Chain' (· ≤ ·) (cursorTrace cfg f ops x d) := by
  intro ops
  induction ops with
  | nil => intro x d; exact List.chain'_nil
  | cons op rest ih =>
    intro x d
    show List.Chain' (· ≤ ·) (x :: _)
    rw [List.chain'_cons']
    cases hr : renderOp cfg f op x d with
    | ok r =>
      refine ⟨?_, ih (x + r.1) r.2⟩
      intro y hy
      rw [cursorTrace_head] at hy
      split at hy
      · cases hy
      · cases hy
        exact Nat.le_add_right x r.1
    | err e => exact ⟨(by intro y hy; cases hy), List.chain'_nil⟩
    | fatal m => exact ⟨(by intro y hy; cases hy), List.chain'_nil⟩

/-- C5: the Compositor's cursor starts at 0, operations are applied strictly
in input order (the render loop is literally the sequential fold of
`renderOp`), and the cursor values observed before each operation are
monotonically non-decreasing. -/
theorem render_cursor_order (cfg : RenderConfig) (f : Option Font) (ops : List Op) :
    (cursorTrace cfg f ops 0 (Display.new cfg.y cfg.min_x)).head? =
      (if ops.isEmpty then none else some 0) ∧
    List.Chain' (· ≤ ·) (cursorTrace cfg f ops 0 (Display.new cfg.y cfg.min_x)) ∧
    (∀ (op : Op) (rest : List Op) (x : Nat) (d : Display),
      renderOps cfg f (op :: rest) x d =
        (renderOp cfg f op x d).bind fun r => renderOps cfg f rest (x + r.1) r.2) :=
  ⟨cursorTrace_head cfg f ops 0 _, cursorTrace_chain cfg f ops 0 _,
    fun _ _ _ _ => rfl⟩

/-! ## Claim C1: barcode-class operations -/

/-- C1 (code bug): an operation with no rendering routine hits the
`unimplemented!()` arm of `Render::render` and panics; it does not return a
catchable `UnsupportedOperation` error, and no canvas state is returned. -/
theorem render_barcode_panics :
    (∀ (cfg : RenderConfig) (f : Option Font) (v : String) (rest : List Op)
      (x : Nat) (d : Display),
      renderOps cfg f (Op.barcode v :: rest) x d = .fatal "not implemented") ∧
    Render.render ⟨1, 4, 8⟩ none [Op.pad 1, Op.barcode "QR"] = .fatal "not implemented" := by
  exact ⟨fun _ _ _ _ _ _ => rfl, by decide⟩

/-! ## Claim C3: max_x is never enforced -/

/-- C3 (code bug): `Render::render` never consults `cfg.max_x`: growing the
canvas past `max_x` succeeds (here to width 11 with `max_x = 4`), and no code
path ever produces a `WidthExceeded` error — the only recoverable error kind
the render loop can return is `OutOfBounds`. -/
theorem render_ignores_max_x :
    (Render.render ⟨1, 4, 8⟩ none [Op.pad 10] = .ok (10, ⟨8, List.replicate 11 [0]⟩) ∧
      (⟨8, List.replicate 11 [0]⟩ : Display).width = 11 ∧
      (⟨1, 4, 8⟩ : RenderConfig).max_x < 11) ∧
    (∀ (cfg : RenderConfig) (f : Option Font) (ops : List Op) (x : Nat)
      (d : Display) (e : RError),
      renderOps cfg f ops x d = .err e → e = .outOfBounds) := by
  refine ⟨⟨by decide, by decide, by decide⟩, ?_⟩
  intro cfg f ops
  induction ops with
  | nil => intro x d e h; cases h
  | cons op rest ih =>
    intro x d e h
    unfold renderOps at h
    cases hr : renderOp cfg f op x d with
    | ok r =>
      rw [hr] at h
      exact ih (x + r.1) r.2 e h
    | err e1 =>
      rw [hr] at h
      cases h
      exact renderOp_err hr
    | fatal m =>
      rw [hr] at h
      cases h

/-- Witness for C3's universally quantified part: with height 0, `Pad` fails
and the error kind is `OutOfBounds` (never `WidthExceeded`). -/
theorem render_ignores_max_x_witness :
    RError.outOfBounds = RError.outOfBounds ∧
      renderOps ⟨1, 4, 0⟩ none [Op.pad 0] 0 (Display.new 0 1) = .err .outOfBounds := by
  constructor
  · exact render_ignores_max_x.2 ⟨1, 4, 0⟩ none [Op.pad 0] 0 (Display.new 0 1)
      RError.outOfBounds (by decide)
  · decide

/-! ## Concrete test fonts (abstract font-interface instances used as inputs) -/

/-- A glyph with the given advance, no bounding box, zero coverage. -/
def mkGlyph (adv : ℚ) : Glyph := ⟨adv, none, fun _ _ => 0⟩

/-- A font with integral metrics (ascent 10, descent 0, line gap 0) whose
glyphs have advance 3 and draw nothing. -/
def plainFont : Font := ⟨⟨10, 0, 0⟩, fun l => l.map fun _ => mkGlyph 3, rfl⟩

/-- A glyph with advance 3 and a 1-by-1 bounding box at the line origin,
fully covered. -/
def dotGlyph : Glyph := ⟨3, some ⟨0, 0, 1, 1⟩, fun _ _ => 1⟩

/-- A font like `plainFont` whose glyphs each draw one full-coverage pixel. -/
def dotFont : Font := ⟨⟨10, 0, 0⟩, fun l => l.map fun _ => dotGlyph, rfl⟩

/-! ## Claim C4: font parse failure -/

/-- C4 (code bug): when the hardcoded font blob fails to parse,
`render_text_ttf` panics via `.expect("Error constructing Font")` for every
text operation; the failure is never returned to the caller as a recoverable
font-load error. -/
theorem render_text_font_failure_panics :
    ∀ (cfg : RenderConfig) (x : Nat) (value : String) (opts : TextOptions) (d : Display),
      render_text_ttf cfg none x value opts d = .fatal "Error constructing Font" :=
  fun cfg x value opts d => render_text_ttf_none cfg x value opts d

/-! ## Claim C10: vertical-centring underflow -/

/-- C10: with `vertical_centre` set and half the block height exceeding half
the canvas height, the usize subtraction `(cfg.y / 2) - (t_height / 2)` in
`render_text_ttf` underflows and the operation panics instead of returning a
recoverable error. -/
theorem vcentre_underflow_panics (cfg : RenderConfig) (font : Font) (x : Nat)
    (value : String) (opts : TextOptions) (d : Display) (t : Nat)
    (hv : opts.vcentre = true) (ht : tHeight font value = .ok t)
    (hgt : cfg.y / 2 < t / 2) :
    render_text_ttf cfg (some font) x value opts d =
      .fatal "attempt to subtract with overflow" := by
  rw [render_text_ttf_some, baseY_def, ht]
  show Outcome.bind (if opts.vcentre = true then checkedSub (cfg.y / 2) (t / 2)
    else Outcome.ok 0) _ = _
  rw [hv, if_pos rfl]
  unfold checkedSub
  rw [if_neg (by omega)]
  rfl

/-- Witness for C10: a concrete font with line height 10 and a five-line
string on an 8-row canvas. -/
theorem vcentre_underflow_panics_witness :
    (⟨true⟩ : TextOptions).vcentre = true ∧
    tHeight plainFont "b\nb\nb\nb\nb" = .ok 50 ∧
    (⟨0, 1024, 8⟩ : RenderConfig).y / 2 < 50 / 2 ∧
    render_text_ttf ⟨0, 1024, 8⟩ (some plainFont) 0 "b\nb\nb\nb\nb" ⟨true⟩ (Display.new 8 0) =
      .fatal "attempt to subtract with overflow" := by
  have ht : tHeight plainFont "b\nb\nb\nb\nb" = .ok 50 := by
    simp [tHeight, vHeight, plainFont, checkedSub]
    decide
  exact ⟨rfl, ht, by decide,
    vcentre_underflow_panics ⟨0, 1024, 8⟩ plainFont 0 "b\nb\nb\nb\nb" ⟨true⟩
      (Display.new 8 0) 50 rfl ht (by decide)⟩

/-! ## Claim C8: vertical metric arithmetic -/

/-- C8 counterexample: with `vertical_centre` set and a four-line text whose
block height 40 exceeds the canvas height 8, the code does not produce the
claimed start offset `canvas_height/2 − block_height/2`: the usize
subtraction underflows and the operation panics, so no offset exists. -/
theorem vcentre_offset_counterexample :
    render_text_ttf ⟨0, 1024, 8⟩ (some plainFont) 0 "a\na\na\na" ⟨true⟩ (Display.new 8 0) =
      .fatal "attempt to subtract with overflow" ∧
    (⟨0, 1024, 8⟩ : RenderConfig).y / 2 < 40 / 2 := by
  have ht : tHeight plainFont "a\na\na\na" = .ok 40 := by
    simp [tHeight, vHeight, plainFont, checkedSub]
    decide
  constructor
  · rw [render_text_ttf_some, baseY_def, ht]
    show Outcome.bind (if (⟨true⟩ : TextOptions).vcentre = true
      then checkedSub ((⟨0, 1024, 8⟩ : RenderConfig).y / 2) (40 / 2)
      else Outcome.ok 0) _ = _
    rw [if_pos rfl]
    unfold checkedSub
    rw [if_neg (by decide)]
    rfl
  · decide

/-- C8 (amended): the line height is `ceil(ascent − descent + line_gap)`
(as an integer once that ceiling is non-negative; `as usize` saturates), the
block height is `line_height * line_count − floor(line_gap)` whenever that
usize subtraction does not underflow, and the vertical start offset is
`canvas_height/2 − block_height/2` when `vertical_centre` is set and that
subtraction does not underflow (otherwise the operation panics, see the
counterexample), and 0 when `vertical_centre` is unset. -/
theorem text_vertical_metrics_amended :
    (∀ font : Font,
      0 ≤ ⌈font.vmetrics.ascent - font.vmetrics.descent + font.vmetrics.lineGap⌉ →
      (vHeight font : Int) =
        ⌈font.vmetrics.ascent - font.vmetrics.descent + font.vmetrics.lineGap⌉) ∧
    (∀ (font : Font) (value : String),
      (⌊font.vmetrics.lineGap⌋ : Int).toNat ≤ vHeight font * (splitNl value.data).length →
      tHeight font value =
        .ok (vHeight font * (splitNl value.data).length -
          (⌊font.vmetrics.lineGap⌋ : Int).toNat)) ∧
    (∀ (cfg : RenderConfig) (font : Font) (value : String) (opts : TextOptions) (t : Nat),
      tHeight font value = .ok t → opts.vcentre = true → t / 2 ≤ cfg.y / 2 →
      baseY cfg font value opts = .ok (cfg.y / 2 - t / 2)) ∧
    (∀ (cfg : RenderConfig) (font : Font) (value : String) (opts : TextOptions) (t : Nat),
      tHeight font value = .ok t → opts.vcentre = false →
      baseY cfg font value opts = .ok 0) := by
  refine ⟨?_, ?_, ?_, ?_⟩
  · intro font h
    unfold vHeight
    generalize ⌈font.vmetrics.ascent - font.vmetrics.descent + font.vmetrics.lineGap⌉ = n at h ⊢
    omega
  · intro font value h
    unfold tHeight checkedSub
    rw [if_pos h]
  · intro cfg font value opts t ht hv hle
    rw [baseY_def, ht]
    show (if opts.vcentre = true then checkedSub (cfg.y / 2) (t / 2) else Outcome.ok 0) = _
    rw [hv, if_pos rfl]
    unfold checkedSub
    rw [if_pos hle]
  · intro cfg font value opts t ht hv
    rw [baseY_def, ht]
    show (if opts.vcentre = true then checkedSub (cfg.y / 2) (t / 2) else Outcome.ok 0) = _
    rw [hv]
    simp

/-- Witness for C8's amended statement: each conjunct instantiated at
`plainFont`, a two-line string, and a 64-row canvas. -/
theorem text_vertical_metrics_amended_witness :
    ((vHeight plainFont : Int) =
      ⌈plainFont.vmetrics.ascent - plainFont.vmetrics.descent + plainFont.vmetrics.lineGap⌉) ∧
    tHeight plainFont "a\na" =
      .ok (vHeight plainFont * (splitNl "a\na".data).length -
        (⌊plainFont.vmetrics.lineGap⌋ : Int).toNat) ∧
    baseY ⟨0, 1024, 64⟩ plainFont "a\na" ⟨true⟩ = .ok ((64 : Nat) / 2 - 20 / 2) ∧
    baseY ⟨0, 1024, 64⟩ plainFont "a\na" ⟨false⟩ = .ok 0 := by
  have ht : tHeight plainFont "a\na" = .ok 20 := by
    simp [tHeight, vHeight, plainFont, checkedSub]
    decide
  refine ⟨?_, ?_, ?_, ?_⟩
  · exact text_vertical_metrics_amended.1 plainFont (by simp [plainFont])
  · exact text_vertical_metrics_amended.2.1 plainFont "a\na" (by simp [vHeight, plainFont])
  · exact text_vertical_metrics_amended.2.2.1 ⟨0, 1024, 64⟩ plainFont "a\na" ⟨true⟩ 20 ht rfl
      (by decide)
  · exact text_vertical_metrics_amended.2.2.2 ⟨0, 1024, 64⟩ plainFont "a\na" ⟨false⟩ 20 ht rfl

/-! ## Claim C7: the returned advance is the maximum line width -/

theorem splitNl_ne_nil : ∀ l : List Char, splitNl l ≠ [] := by
  intro l
  cases l with
  | nil => intro h; cases h
  | cons c rest =>
    unfold splitNl
    split
    · intro h
      cases h
    · split
      · intro h
        cases h
      · intro h
        cases h

/-- The running-maximum fold of `render_text_ttf`'s line loop: the result
bounds the accumulator and every element, and is attained. -/
theorem foldl_max_spec {α : Type} (g : α → Nat) :
    ∀ (l : List α) (a : Nat),
      a ≤ l.foldl (fun m x => if m < g x then g x else m) a ∧
      (∀ x ∈ l, g x ≤ l.foldl (fun m x => if m < g x then g x else m) a) ∧
      (l.foldl (fun m x => if m < g x then g x else m) a = a ∨
        ∃ x ∈ l, g x = l.foldl (fun m x => if m < g x then g x else m) a) := by
  intro l
  induction l with
  | nil => exact fun a => ⟨Nat.le_refl a, by simp, .inl rfl⟩
  | cons x xs ih =>
    intro a
    simp only [List.foldl_cons]
    rcases ih (if a < g x then g x else a) with ⟨h1, h2, h3⟩
    refine ⟨?_, ?_, ?_⟩
    · refine Nat.le_trans ?_ h1
      split <;> omega
    · intro y hy
      rcases List.mem_cons.1 hy with rfl | hy'
      · refine Nat.le_trans ?_ h1
        split <;> omega
      · exact h2 y hy'
    · rcases h3 with h | ⟨z, hz, hgz⟩
      · rcases Nat.lt_or_ge a (g x) with hlt | hge
        · right
          exact ⟨x, List.mem_cons_self x xs, by rw [h, if_pos hlt]⟩
        · left
          rw [h, if_neg (by omega)]
      · right
        exact ⟨z, List.mem_cons_of_mem x hz, hgz⟩

theorem renderLines_ok_fst (font : Font) (baseX bY vH : Nat) :
    ∀ (lines : List (List Char)) (i maxW : Nat) (d : Display) (w : Nat) (d' : Display),
      renderLines font baseX bY vH lines i maxW d = .ok (w, d') →
      w = lines.foldl
        (fun m l => if m < lineWidth (font.layout l) then lineWidth (font.layout l) else m)
        maxW := by
  intro lines
  induction lines with
  | nil =>
    intro i maxW d w d' h
    cases h
    rfl
  | cons line rest ih =>
    intro i maxW d w d' h
    rw [renderLines_cons] at h
    cases hf : foldDraw (drawGlyph baseX (bY + i * vH)) (font.layout line) d with
    | ok d1 =>
      rw [hf] at h
      exact ih _ _ d1 w d' h
    | err e =>
      rw [hf] at h
      cases h
    | fatal m =>
      rw [hf] at h
      cases h

/-- C7: each line's pixel width is the sum of its glyphs' advance widths each
rounded up (the definition of `lineWidth`, as in the source), and a
successful `render_text_ttf` returns the maximum line width over all lines;
the empty string yields advance 0. -/
theorem text_advance_max_line_width (cfg : RenderConfig) (font : Font) (x : Nat)
    (value : String) (opts : TextOptions) (d : Display) (w : Nat) (d' : Display)
    (h : render_text_ttf cfg (some font) x value opts d = .ok (w, d')) :
    (∀ glyphs : List Glyph,
      lineWidth glyphs = (glyphs.map fun g => (⌈g.advanceWidth⌉ : Int).toNat).sum) ∧
    (∀ l ∈ splitNl value.data, lineWidth (font.layout l) ≤ w) ∧
    (∃ l ∈ splitNl value.data, lineWidth (font.layout l) = w) ∧
    (value = "" → w = 0) := by
  rw [render_text_ttf_some] at h
  cases hb : baseY cfg font value opts with
  | ok bY =>
    rw [hb] at h
    have hw := renderLines_ok_fst font x bY (vHeight font) (splitNl value.data) 0 0 d w d' h
    rcases foldl_max_spec (fun l => lineWidth (font.layout l)) (splitNl value.data) 0 with
      ⟨_, h2, h3⟩
    rw [← hw] at h2 h3
    refine ⟨fun _ => rfl, h2, ?_, ?_⟩
    · rcases h3 with h0 | ⟨l, hl, hgl⟩
      · rcases hnil : splitNl value.data with _ | ⟨l0, ls⟩
        · exact absurd hnil (splitNl_ne_nil value.data)
        · refine ⟨l0, List.mem_cons_self l0 ls, ?_⟩
          have := h2 l0 (by rw [hnil]; exact List.mem_cons_self l0 ls)
          omega
      · exact ⟨l, hl, hgl⟩
    · intro hempty
      subst hempty
      have hlines : splitNl ("" : String).data = [[]] := rfl
      rw [hlines] at hw
      simp only [List.foldl_cons, List.foldl_nil, font.layout_nil] at hw
      have : lineWidth [] = 0 := rfl
      rw [this] at hw
      simpa using hw
  | err e =>
    rw [hb] at h
    cases h
  | fatal m =>
    rw [hb] at h
    cases h

/-- Drawing glyphs with no bounding box leaves the display untouched. -/
theorem foldDraw_drawGlyph_nobb (bx ly : Nat) :
    ∀ (gs : List Glyph), (∀ g ∈ gs, g.bb = none) →
      ∀ d : Display, foldDraw (drawGlyph bx ly) gs d = .ok d := by
  intro gs
  induction gs with
  | nil => intro _ d; rfl
  | cons g rest ih =>
    intro hbb d
    have hg : drawGlyph bx ly d g = .ok d := by
      unfold drawGlyph glyphTargets
      rw [hbb g (List.mem_cons_self g rest)]
      rfl
    show (drawGlyph bx ly d g).bind (foldDraw (drawGlyph bx ly) rest) = .ok d
    rw [hg]
    exact ih (fun g' hg' => hbb g' (List.mem_cons_of_mem g hg')) d

/-- Witness for C7: `plainFont` on the two-line string `"ab\nc"` succeeds with
advance 6, the width of the wider line. -/
theorem text_advance_max_line_width_witness :
    (∀ l ∈ splitNl ("ab\nc" : String).data,
      lineWidth (plainFont.layout l) ≤ 6) ∧
    (∃ l ∈ splitNl ("ab\nc" : String).data, lineWidth (plainFont.layout l) = 6) := by
  have hbb : ∀ (l : List Char), ∀ g ∈ plainFont.layout l, g.bb = none := by
    intro l g hg
    rcases List.mem_map.1 hg with ⟨c, _, rfl⟩
    rfl
  have hlines : splitNl ("ab\nc" : String).data = [['a', 'b'], ['c']] := by decide
  have ht : tHeight plainFont "ab\nc" = .ok 20 := by
    simp [tHeight, vHeight, plainFont, checkedSub]
    decide
  have hb : baseY ⟨0, 1024, 8⟩ plainFont "ab\nc" ⟨false⟩ = .ok 0 := by
    rw [baseY_def, ht]
    rfl
  have hlw2 : lineWidth (plainFont.layout ['a', 'b']) = 6 := by
    simp [lineWidth, plainFont, mkGlyph]
  have hlw1 : lineWidth (plainFont.layout ['c']) = 3 := by
    simp [lineWidth, plainFont, mkGlyph]
  have h : render_text_ttf ⟨0, 1024, 8⟩ (some plainFont) 0 "ab\nc" ⟨false⟩ (Display.new 8 0) =
      .ok (6, Display.new 8 0) := by
    rw [render_text_ttf_some, hb]
    show renderLines plainFont 0 0 (vHeight plainFont) (splitNl ("ab\nc" : String).data)
      0 0 (Display.new 8 0) = _
    rw [hlines, renderLines_cons,
      foldDraw_drawGlyph_nobb 0 (0 + 0 * vHeight plainFont) _ (hbb ['a', 'b']) _]
    show renderLines plainFont 0 0 (vHeight plainFont) [['c']] 1
      (if 0 < lineWidth (plainFont.layout ['a', 'b']) then lineWidth (plainFont.layout ['a', 'b']) else 0)
      (Display.new 8 0) = _
    rw [hlw2, renderLines_cons,
      foldDraw_drawGlyph_nobb 0 (0 + 1 * vHeight plainFont) _ (hbb ['c']) _]
    show renderLines plainFont 0 0 (vHeight plainFont) [] 2
      (if 6 < lineWidth (plainFont.layout ['c']) then lineWidth (plainFont.layout ['c']) else 6)
      (Display.new 8 0) = _
    rw [hlw1]
    rfl
  have := text_advance_max_line_width ⟨0, 1024, 8⟩ plainFont 0 "ab\nc" ⟨false⟩
    (Display.new 8 0) 6 (Display.new 8 0) h
  exact ⟨this.2.1, this.2.2.1⟩

/-! ## Claim C9: thresholded glyph pixel writes -/

/-- A coverage target writes pixel (p, q) iff its coverage exceeds the 0.5
threshold and its signed coordinates equal (p, q). -/
def targetWrites (t : Int × Int × ℚ) (p q : Nat) : Prop :=
  (1 : ℚ) / 2 < t.2.2 ∧ t.1 = (p : Int) ∧ t.2.1 = (q : Int)

theorem drawCov_ok_pixel :
    ∀ (d : Display) (t : Int × Int × ℚ) (d' : Display), d.WF → drawCov d t = .ok d' →
      d'.WF ∧ ∀ p q : Nat,
        (d'.pixel p q = true ↔ d.pixel p q = true ∨ targetWrites t p q) := by
  intro d t d' hwf h
  unfold drawCov at h
  split at h
  · rename_i hcov
    cases hdp : d.draw_pixel t.1 t.2.1 true with
    | ok d1 =>
      rw [hdp] at h
      cases h
      obtain ⟨hpx, hpy, hylt, rfl⟩ := draw_pixel_eq_ok hdp
      refine ⟨wf_setData hwf, ?_⟩
      intro p q
      rw [pixel_setData hwf hylt p q]
      constructor
      · intro hpt
        split at hpt
        · rename_i hpq
          right
          refine ⟨hcov, ?_, ?_⟩
          · omega
          · omega
        · left
          exact hpt
      · rintro (hp | ⟨_, hpeq, hqeq⟩)
        · split
          · rfl
          · exact hp
        · rw [if_pos ⟨by omega, by omega⟩]
    | err e1 =>
      rw [hdp] at h
      cases h
    | fatal m =>
      rw [hdp] at h
      cases h
  · rename_i hcov
    cases h
    refine ⟨hwf, fun p q => ?_⟩
    constructor
    · intro hp
      exact .inl hp
    · rintro (hp | ⟨hc, _, _⟩)
      · exact hp
      · exact absurd hc hcov

/-- Fold-level pixel characterization: a successful fold of a drawing step
turns a pixel on iff it was on before or some list element writes it. -/
theorem foldDraw_pixel {α : Type} {f : Display → α → Outcome Display}
    {W : α → Nat → Nat → Prop}
    (hf : ∀ (d : Display) (a : α) (d' : Display), d.WF → f d a = .ok d' →
      d'.WF ∧ ∀ p q : Nat, (d'.pixel p q = true ↔ d.pixel p q = true ∨ W a p q)) :
    ∀ (l : List α) (d d' : Display), d.WF → foldDraw f l d = .ok d' →
      d'.WF ∧ ∀ p q : Nat,
        (d'.pixel p q = true ↔ d.pixel p q = true ∨ ∃ a ∈ l, W a p q) := by
  intro l
  induction l with
  | nil =>
    intro d d' hwf h
    cases h
    exact ⟨hwf, fun p q => by simp⟩
  | cons a rest ih =>
    intro d d' hwf h
    have hstep : (f d a).bind (foldDraw f rest) = .ok d' := h
    cases ha : f d a with
    | ok d1 =>
      rw [ha] at hstep
      obtain ⟨hwf1, hiff1⟩ := hf d a d1 hwf ha
      obtain ⟨hwf', hiff2⟩ := ih d1 d' hwf1 hstep
      refine ⟨hwf', fun p q => ?_⟩
      rw [hiff2 p q, hiff1 p q]
      simp only [List.mem_cons]
      constructor
      · rintro ((hp | hW) | ⟨b, hb, hWb⟩)
        · exact .inl hp
        · exact .inr ⟨a, .inl rfl, hW⟩
        · exact .inr ⟨b, .inr hb, hWb⟩
      · rintro (hp | ⟨b, rfl | hb, hWb⟩)
        · exact .inl (.inl hp)
        · exact .inl (.inr hWb)
        · exact .inr ⟨b, hb, hWb⟩
    | err e =>
      rw [ha] at hstep
      cases hstep
    | fatal m =>
      rw [ha] at hstep
      cases hstep

theorem drawGlyph_pixel (baseX lineY : Nat) :
    ∀ (d : Display) (g : Glyph) (d' : Display), d.WF → drawGlyph baseX lineY d g = .ok d' →
      d'.WF ∧ ∀ p q : Nat,
        (d'.pixel p q = true ↔ d.pixel p q = true ∨
          ∃ t ∈ glyphTargets baseX lineY g, targetWrites t p q) :=
  fun d g d' hwf h => foldDraw_pixel drawCov_ok_pixel (glyphTargets baseX lineY g) d d' hwf h

theorem drawGlyphs_pixel (baseX lineY : Nat) (glyphs : List Glyph)
    (d d' : Display) (hwf : d.WF)
    (h : foldDraw (drawGlyph baseX lineY) glyphs d = .ok d') :
    d'.WF ∧ ∀ p q : Nat,
      (d'.pixel p q = true ↔ d.pixel p q = true ∨
        ∃ g ∈ glyphs, ∃ t ∈ glyphTargets baseX lineY g, targetWrites t p q) :=
  foldDraw_pixel (drawGlyph_pixel baseX lineY) glyphs d d' hwf h

theorem renderLines_pixel (font : Font) (baseX bY vH : Nat) :
    ∀ (lines : List (List Char)) (i maxW : Nat) (d : Display) (w : Nat) (d' : Display),
      d.WF → renderLines font baseX bY vH lines i maxW d = .ok (w, d') →
      d'.WF ∧ ∀ p q : Nat,
        (d'.pixel p q = true ↔ d.pixel p q = true ∨
          ∃ j, j < lines.length ∧ ∃ g ∈ font.layout (lines.getD j []),
            ∃ t ∈ glyphTargets baseX (bY + (i + j) * vH) g, targetWrites t p q) := by
  intro lines
  induction lines with
  | nil =>
    intro i maxW d w d' hwf h
    cases h
    refine ⟨hwf, fun p q => ?_⟩
    constructor
    · exact fun hp => .inl hp
    · rintro (hp | ⟨j, hj, _⟩)
      · exact hp
      · simp at hj
  | cons line rest ih =>
    intro i maxW d w d' hwf h
    rw [renderLines_cons] at h
    cases hf : foldDraw (drawGlyph baseX (bY + i * vH)) (font.layout line) d with
    | ok d1 =>
      rw [hf] at h
      obtain ⟨hwf1, hiff1⟩ := drawGlyphs_pixel baseX (bY + i * vH) (font.layout line) d d1 hwf hf
      obtain ⟨hwf', hiff2⟩ := ih (i + 1) _ d1 w d' hwf1 h
      refine ⟨hwf', fun p q => ?_⟩
      rw [hiff2 p q, hiff1 p q]
      constructor
      · rintro ((hp | ⟨g, hg, t, ht, hW⟩) | ⟨j, hj, g, hg, t, ht, hW⟩)
        · exact .inl hp
        · refine .inr ⟨0, by simp, g, ?_, t, ?_, hW⟩
          · simpa using hg
          · simpa using ht
        · refine .inr ⟨j + 1, by simpa using hj, g, ?_, t, ?_, hW⟩
          · simpa using hg
          · have harith : i + (j + 1) = i + 1 + j := by omega
            rw [harith]
            exact ht
      · rintro (hp | ⟨j, hj, g, hg, t, ht, hW⟩)
        · exact .inl (.inl hp)
        · cases j with
          | zero =>
            refine .inl (.inr ⟨g, ?_, t, ?_, hW⟩)
            · simpa using hg
            · simpa using ht
          | succ j' =>
            refine .inr ⟨j', by simpa using hj, g, ?_, t, ?_, hW⟩
            · simpa using hg
            · have harith : i + 1 + j' = i + (j' + 1) := by omega
              rw [harith]
              exact ht
    | err e =>
      rw [hf] at h
      cases h
    | fatal m =>
      rw [hf] at h
      cases h

/-- Membership in the coverage-target list of one glyph. -/
theorem mem_glyphTargets {baseX lineY : Nat} {g : Glyph} {t : Int × Int × ℚ} :
    t ∈ glyphTargets baseX lineY g ↔
      ∃ bb, g.bb = some bb ∧ ∃ gx, gx < bb.w ∧ ∃ gy, gy < bb.h ∧
        t = ((gx : Int) + bb.minX + (baseX : Int),
          (gy : Int) + bb.minY + (lineY : Int), g.coverage gx gy) := by
  unfold glyphTargets
  cases hbb : g.bb with
  | none =>
    simp
  | some b =>
    simp only [List.mem_flatMap, List.mem_map, List.mem_range]
    constructor
    · rintro ⟨gy, hgy, gx, hgx, rfl⟩
      exact ⟨b, rfl, gx, hgx, gy, hgy, rfl⟩
    · rintro ⟨bb, hbb', gx, hgx, gy, hgy, rfl⟩
      have hbbeq : b = bb := Option.some.inj hbb'
      subst hbbeq
      exact ⟨gy, hgy, gx, hgx, rfl⟩

/-- The claim's drawn-pixel predicate: pixel (p, q) is written by the Text
operation iff some glyph of some line has an above-threshold covered pixel
whose target coordinate is `(cursor_x + bbox_x + glyph_x,
start_y + line_index * line_height + bbox_y)` = (p, q). -/
def specDrawn (cfg : RenderConfig) (font : Font) (x : Nat) (value : String)
    (opts : TextOptions) (p q : Nat) : Prop :=
  ∃ bY, baseY cfg font value opts = .ok bY ∧
    ∃ j, j < (splitNl value.data).length ∧
      ∃ g ∈ font.layout ((splitNl value.data).getD j []),
        ∃ bb, g.bb = some bb ∧
          ∃ gx, gx < bb.w ∧ ∃ gy, gy < bb.h ∧
            (1 : ℚ) / 2 < g.coverage gx gy ∧
            (p : Int) = (gx : Int) + bb.minX + (x : Int) ∧
            (q : Int) = (gy : Int) + bb.minY + ((bY + j * vHeight font : Nat) : Int)

/-- C9: on a successful text render, a pixel is on afterwards iff it was on
before or some covered glyph pixel above the 0.5 coverage threshold maps to
it at the claimed coordinates; pixels at or below the threshold (and all
other pixels) are left unchanged. -/
theorem text_glyph_pixel_writes (cfg : RenderConfig) (font : Font) (x : Nat)
    (value : String) (opts : TextOptions) (d : Display) (w : Nat) (d' : Display)
    (hwf : d.WF) (h : render_text_ttf cfg (some font) x value opts d = .ok (w, d')) :
    ∀ p q : Nat,
      (d'.pixel p q = true ↔ d.pixel p q = true ∨ specDrawn cfg font x value opts p q) := by
  rw [render_text_ttf_some] at h
  cases hb : baseY cfg font value opts with
  | ok bY =>
    rw [hb] at h
    obtain ⟨_, hiff⟩ := renderLines_pixel font x bY (vHeight font)
      (splitNl value.data) 0 0 d w d' hwf h
    intro p q
    rw [hiff p q]
    constructor
    · rintro (hp | ⟨j, hj, g, hg, t, ht, hcov, hpeq, hqeq⟩)
      · exact .inl hp
      · rcases mem_glyphTargets.1 ht with ⟨bb, hbb, gx, hgx, gy, hgy, rfl⟩
        refine .inr ⟨bY, hb, j, hj, g, hg, bb, hbb, gx, hgx, gy, hgy, hcov, ?_, ?_⟩
        · exact hpeq.symm
        · have h2 := hqeq.symm
          rw [Nat.zero_add] at h2
          exact h2
    · rintro (hp | ⟨bY', hbY', j, hj, g, hg, bb, hbb, gx, hgx, gy, hgy, hcov, hpeq, hqeq⟩)
      · exact .inl hp
      · have hbYeq : bY' = bY := by
          rw [hb] at hbY'
          cases hbY'
          rfl
        rw [hbYeq] at hqeq
        refine .inr ⟨j, hj, g, hg,
          ((gx : Int) + bb.minX + (x : Int),
            (gy : Int) + bb.minY + ((bY + (0 + j) * vHeight font : Nat) : Int),
            g.coverage gx gy), ?_, ?_⟩
        · exact mem_glyphTargets.2 ⟨bb, hbb, gx, hgx, gy, hgy, rfl⟩
        · refine ⟨hcov, hpeq.symm, ?_⟩
          show (gy : Int) + bb.minY + ((bY + (0 + j) * vHeight font : Nat) : Int) = (q : Int)
          rw [Nat.zero_add]
          exact hqeq.symm
  | err e =>
    rw [hb] at h
    cases h
  | fatal m =>
    rw [hb] at h
    cases h

/-- Witness for C9: `dotFont` draws the single pixel (0, 0) on an empty
8-row canvas when rendering `"A"` at cursor 0. -/
theorem text_glyph_pixel_writes_witness :
    (Display.new 8 0).WF ∧
      ((⟨8, [[1]]⟩ : Display).pixel 0 0 = true ↔
        (Display.new 8 0).pixel 0 0 = true ∨
          specDrawn ⟨0, 1024, 8⟩ dotFont 0 "A" ⟨false⟩ 0 0) := by
  have ht : tHeight dotFont "A" = .ok 10 := by
    simp [tHeight, vHeight, dotFont, checkedSub]
    decide
  have hb : baseY ⟨0, 1024, 8⟩ dotFont "A" ⟨false⟩ = .ok 0 := by
    rw [baseY_def, ht]
    rfl
  have htar : glyphTargets 0 0 dotGlyph = [((0 : Int), (0 : Int), (1 : ℚ))] := rfl
  have hdc : drawCov (Display.new 8 0) ((0 : Int), (0 : Int), (1 : ℚ)) = .ok ⟨8, [[1]]⟩ := by
    unfold drawCov
    rw [if_pos one_half_lt_one]
    decide
  have hdg : drawGlyph 0 0 (Display.new 8 0) dotGlyph = .ok ⟨8, [[1]]⟩ := by
    unfold drawGlyph
    rw [htar]
    show (drawCov (Display.new 8 0) ((0 : Int), (0 : Int), (1 : ℚ))).bind
      (foldDraw drawCov []) = _
    rw [hdc]
    rfl
  have h0 : (0 : Nat) + 0 * vHeight dotFont = 0 := by omega
  have hfold : foldDraw (drawGlyph 0 (0 + 0 * vHeight dotFont)) (dotFont.layout ['A'])
      (Display.new 8 0) = .ok ⟨8, [[1]]⟩ := by
    rw [h0]
    show (drawGlyph 0 0 (Display.new 8 0) dotGlyph).bind (foldDraw (drawGlyph 0 0) []) = _
    rw [hdg]
    rfl
  have hlw : lineWidth (dotFont.layout ['A']) = 3 := by
    simp [lineWidth, dotFont, dotGlyph]
  have hrl : renderLines dotFont 0 0 (vHeight dotFont) [['A']] 0 0 (Display.new 8 0) =
      .ok (3, ⟨8, [[1]]⟩) := by
    rw [renderLines_cons, hfold]
    show Outcome.ok
      ((if 0 < lineWidth (dotFont.layout ['A']) then lineWidth (dotFont.layout ['A']) else 0),
        (⟨8, [[1]]⟩ : Display)) = _
    rw [hlw]
    rfl
  have h : render_text_ttf ⟨0, 1024, 8⟩ (some dotFont) 0 "A" ⟨false⟩ (Display.new 8 0) =
      .ok (3, ⟨8, [[1]]⟩) := by
    rw [render_text_ttf_some, hb]
    show renderLines dotFont 0 0 (vHeight dotFont) (splitNl ("A" : String).data) 0 0
      (Display.new 8 0) = _
    rw [show splitNl ("A" : String).data = [['A']] from rfl]
    exact hrl
  exact ⟨wf_new 8 0,
    text_glyph_pixel_writes ⟨0, 1024, 8⟩ dotFont 0 "A" ⟨false⟩ (Display.new 8 0) 3
      ⟨8, [[1]]⟩ (wf_new 8 0) h 0 0⟩

/-! ## Claim C6: Pad semantics and the [Pad(5), Text("A")] scenario -/

/-- A successful `pad` yields advance exactly `n` and the display obtained by
setting pixel `(x + n, 0)` to off (which grows the canvas to `x + n + 1`). -/
theorem pad_ok_elim {x n : Nat} {d : Display} {r : Nat × Display}
    (h : pad x n d = .ok r) :
    0 < d.height ∧ r = (n, ⟨d.height, setData d (x + n) 0 false⟩) := by
  rw [pad_def] at h
  cases hd : d.draw_pixel ((x + n : Nat) : Int) 0 false with
  | ok dd =>
    rw [hd] at h
    cases h
    obtain ⟨_, _, hy, rfl⟩ := draw_pixel_eq_ok hd
    refine ⟨hy, ?_⟩
    rw [Int.toNat_ofNat]
    rfl
  | err e =>
    rw [hd] at h
    cases h
  | fatal m =>
    rw [hd] at h
    cases h

/-- `pad` succeeds on a display of positive height. -/
theorem pad_eq_ok {x n : Nat} {d : Display} (h0 : 0 < d.height) :
    pad x n d = .ok (n, ⟨d.height, setData d (x + n) 0 false⟩) := by
  rw [pad_def]
  have hdp : d.draw_pixel ((x + n : Nat) : Int) 0 false = d.set (x + n) 0 false := by
    unfold Display.draw_pixel
    rw [if_neg (by omega)]
    rw [Int.toNat_ofNat]
    rfl
  rw [hdp, Display.set_eq (by omega)]
  rfl

/-- The evaluation of the scenario with `wideFont` (advance 10, no drawn
pixels): the cursor ends at 15 but the canvas only ever grows to width 6. -/
def wideFont : Font := ⟨⟨10, 0, 0⟩, fun l => l.map fun _ => mkGlyph 10, rfl⟩

theorem render_pad_text_wideFont :
    Render.render ⟨0, 1024, 8⟩ (some wideFont) [Op.pad 5, Op.text "A" ⟨false⟩] =
      .ok (15, ⟨8, List.replicate 6 [0]⟩) := by
  have hbb : ∀ (l : List Char), ∀ g ∈ wideFont.layout l, g.bb = none := by
    intro l g hg
    rcases List.mem_map.1 hg with ⟨c, _, rfl⟩
    rfl
  have hpad : pad 0 5 (Display.new 8 0) = .ok (5, ⟨8, List.replicate 6 [0]⟩) := by decide
  have hlw : lineWidth (wideFont.layout ['A']) = 10 := by
    simp [lineWidth, wideFont, mkGlyph]
  have ht : tHeight wideFont "A" = .ok 10 := by
    simp [tHeight, vHeight, wideFont, checkedSub]
    decide
  have hbase : baseY ⟨0, 1024, 8⟩ wideFont "A" ⟨false⟩ = .ok 0 := by
    rw [baseY_def, ht]
    rfl
  have htext : render_text_ttf ⟨0, 1024, 8⟩ (some wideFont) 5 "A" ⟨false⟩
      ⟨8, List.replicate 6 [0]⟩ = .ok (10, ⟨8, List.replicate 6 [0]⟩) := by
    rw [render_text_ttf_some, hbase]
    show renderLines wideFont 5 0 (vHeight wideFont) (splitNl ("A" : String).data) 0 0
      ⟨8, List.replicate 6 [0]⟩ = _
    rw [show splitNl ("A" : String).data = [['A']] from rfl, renderLines_cons,
      foldDraw_drawGlyph_nobb 5 (0 + 0 * vHeight wideFont) _ (hbb ['A']) _]
    show Outcome.ok
      ((if 0 < lineWidth (wideFont.layout ['A']) then lineWidth (wideFont.layout ['A']) else 0),
        (⟨8, List.replicate 6 [0]⟩ : Display)) = _
    rw [hlw]
    rfl
  show renderOps ⟨0, 1024, 8⟩ (some wideFont) [Op.pad 5, Op.text "A" ⟨false⟩] 0
    (Display.new 8 0) = _
  show (renderOp ⟨0, 1024, 8⟩ (some wideFont) (Op.pad 5) 0 (Display.new 8 0)).bind _ = _
  rw [renderOp_pad, hpad]
  show renderOps ⟨0, 1024, 8⟩ (some wideFont) [Op.text "A" ⟨false⟩] (0 + 5)
    ⟨8, List.replicate 6 [0]⟩ = _
  show (renderOp ⟨0, 1024, 8⟩ (some wideFont) (Op.text "A" ⟨false⟩) (0 + 5)
    ⟨8, List.replicate 6 [0]⟩).bind _ = _
  rw [renderOp_text, show (0 + 5 : Nat) = 5 from rfl, htext]
  rfl

/-- C6 counterexample: the final canvas width is not in general at least
`5 + advance_width_of("A")`: with a font whose "A" has advance 10 but draws
no pixel, rendering `[Pad(5), Text("A")]` yields cursor 15 but canvas
width 6 < 15. -/
theorem pad_text_width_counterexample :
    Render.render ⟨0, 1024, 8⟩ (some wideFont) [Op.pad 5, Op.text "A" ⟨false⟩] =
      .ok (15, ⟨8, List.replicate 6 [0]⟩) ∧
    lineWidth (wideFont.layout ['A']) = 10 ∧
    (⟨8, List.replicate 6 [0]⟩ : Display).width < 5 + 10 := by
  refine ⟨render_pad_text_wideFont, ?_, by decide⟩
  simp [lineWidth, wideFont, mkGlyph]

/-- C6 (amended): `Pad(n)` at cursor `x` advances the cursor by exactly `n`,
writes no "on" pixel, and grows the canvas width to `max(width, x + n + 1)`
(touching the framebuffer at `(x + n, 0)`); rendering `[Pad(5), Text("A")]`
leaves the final cursor at `5 + advance_width_of("A")`, and — provided the
glyph bounding boxes do not extend left of the layout origin — every pixel
the Text draws sits at horizontal offset at least 5.  (The final canvas
width need not reach `5 + advance_width_of("A")`; see the counterexample.) -/
theorem pad_and_text_order :
    (∀ (x n : Nat) (d : Display), 0 < d.height → d.WF →
      ∃ d', pad x n d = .ok (n, d') ∧ d'.width = max d.width (x + n + 1) ∧ d'.WF ∧
        ∀ p q : Nat, d'.pixel p q = true → d.pixel p q = true) ∧
    (∀ (cfg : RenderConfig) (font : Font) (opts : TextOptions) (xf : Nat) (d' : Display),
      (∀ g ∈ font.layout ['A'], ∀ bb, g.bb = some bb → 0 ≤ bb.minX) →
      Render.render cfg (some font) [Op.pad 5, Op.text "A" opts] = .ok (xf, d') →
      xf = 5 + lineWidth (font.layout ['A']) ∧
        ∀ p q : Nat, d'.pixel p q = true → 5 ≤ p) := by
  constructor
  · intro x n d h0 hwf
    refine ⟨⟨d.height, setData d (x + n) 0 false⟩, pad_eq_ok h0, ?_, wf_setData hwf, ?_⟩
    · show (setData d (x + n) 0 false).length = _
      rw [setData_length]
    · intro p q hp
      rw [pixel_setData hwf h0 p q] at hp
      split at hp
      · cases hp
      · exact hp
  · intro cfg font opts xf d' hbb h
    unfold Render.render at h
    have hsteps : (renderOp cfg (some font) (Op.pad 5) 0 (Display.new cfg.y cfg.min_x)).bind
        (fun r => renderOps cfg (some font) [Op.text "A" opts] (0 + r.1) r.2) =
        .ok (xf, d') := h
    cases hpad : renderOp cfg (some font) (Op.pad 5) 0 (Display.new cfg.y cfg.min_x) with
    | ok r =>
      rw [hpad] at hsteps
      rw [renderOp_pad] at hpad
      obtain ⟨hy, rfl⟩ := pad_ok_elim hpad
      -- the display after the pad: well-formed, all pixels off
      have hwf1 : (⟨(Display.new cfg.y cfg.min_x).height,
          setData (Display.new cfg.y cfg.min_x) (0 + 5) 0 false⟩ : Display).WF :=
        wf_setData (wf_new _ _)
      have hoff : ∀ p q : Nat, (⟨(Display.new cfg.y cfg.min_x).height,
          setData (Display.new cfg.y cfg.min_x) (0 + 5) 0 false⟩ : Display).pixel p q = false := by
        intro p q
        rw [pixel_setData (wf_new _ _) hy p q]
        split
        · rfl
        · exact pixel_new _ _ _ _
      -- the text step
      have htext : (renderOp cfg (some font) (Op.text "A" opts) (0 + 5)
          ⟨(Display.new cfg.y cfg.min_x).height,
            setData (Display.new cfg.y cfg.min_x) (0 + 5) 0 false⟩).bind
          (fun r => renderOps cfg (some font) [] ((0 + 5) + r.1) r.2) = .ok (xf, d') := hsteps
      cases htx : renderOp cfg (some font) (Op.text "A" opts) (0 + 5)
          ⟨(Display.new cfg.y cfg.min_x).height,
            setData (Display.new cfg.y cfg.min_x) (0 + 5) 0 false⟩ with
      | ok r2 =>
        rw [htx] at htext
        cases htext
        rw [renderOp_text, render_text_ttf_some] at htx
        cases hbase : baseY cfg font "A" opts with
        | ok bY =>
          rw [hbase] at htx
          have hlines : splitNl ("A" : String).data = [['A']] := rfl
          constructor
          · -- the advance is the single line's width
            have hw := renderLines_ok_fst font (0 + 5) bY (vHeight font)
              (splitNl ("A" : String).data) 0 0 _ r2.1 r2.2 (by
                rw [← htx]
                rfl)
            rw [hlines] at hw
            simp only [List.foldl_cons, List.foldl_nil] at hw
            have : (0 + 5) + r2.1 = 5 + lineWidth (font.layout ['A']) := by
              rcases Nat.lt_or_ge 0 (lineWidth (font.layout ['A'])) with hlt | hge
              · rw [if_pos hlt] at hw
                omega
              · rw [if_neg (by omega)] at hw
                omega
            exact this
          · -- every drawn pixel is at offset ≥ 5
            intro p q hp
            obtain ⟨_, hiff⟩ := renderLines_pixel font (0 + 5) bY (vHeight font)
              (splitNl ("A" : String).data) 0 0 _ r2.1 r2.2 hwf1 (by
                rw [← htx]
                rfl)
            rw [hiff p q] at hp
            rcases hp with hp0 | ⟨j, hj, g, hg, t, ht, hcov, hpeq, hqeq⟩
            · rw [hoff p q] at hp0
              cases hp0
            · rw [hlines] at hj hg
              have hj0 : j = 0 := by
                simp at hj
                exact hj
              subst hj0
              have hg' : g ∈ font.layout ['A'] := by
                simpa using hg
              rcases mem_glyphTargets.1 ht with ⟨bb, hbbg, gx, hgx, gy, hgy, rfl⟩
              have hminX := hbb g hg' bb hbbg
              have hpval : ((p : Nat) : Int) = (gx : Int) + bb.minX + ((0 + 5 : Nat) : Int) :=
                hpeq.symm
              omega
        | err e =>
          rw [hbase] at htx
          cases htx
        | fatal m =>
          rw [hbase] at htx
          cases htx
      | err e =>
        rw [htx] at htext
        cases htext
      | fatal m =>
        rw [htx] at htext
        cases htext
    | err e =>
      rw [hpad] at hsteps
      cases hsteps
    | fatal m =>
      rw [hpad] at hsteps
      cases hsteps

/-- Witness for C6's amended statement: the `pad` part on a fresh 8-row
canvas, and the scenario part at `wideFont` (whose glyphs have no bounding
box, so the bounding-box hypothesis holds vacuously). -/
theorem pad_and_text_order_witness :
    (∃ d', pad 0 1 (Display.new 8 0) = .ok (1, d') ∧
      d'.width = max (Display.new 8 0).width (0 + 1 + 1) ∧ d'.WF ∧
      ∀ p q : Nat, d'.pixel p q = true → (Display.new 8 0).pixel p q = true) ∧
    (15 = 5 + lineWidth (wideFont.layout ['A']) ∧
      ∀ p q : Nat, (⟨8, List.replicate 6 [0]⟩ : Display).pixel p q = true → 5 ≤ p) := by
  constructor
  · exact pad_and_text_order.1 0 1 (Display.new 8 0) (by decide) (wf_new 8 0)
  · refine pad_and_text_order.2 ⟨0, 1024, 8⟩ wideFont ⟨false⟩ 15 ⟨8, List.replicate 6 [0]⟩
      ?_ render_pad_text_wideFont
    intro g hg bb hbb
    rcases List.mem_map.1 hg with ⟨c, _, rfl⟩
    cases hbb

end PTouch
